import Mathlib

/-!
Shallow embedding of the study-outline analyzer
(`脚本工具/analyze_history_outline.py`): the structural scanner
`extract_knowledge_points` and the aggregators
`analyze_knowledge_distribution`, `analyze_questions`,
`analyze_content_features`, together with the load/run pipeline.
Strings are modelled as `List Char`; Python regular-expression
operations are specialised to the concrete patterns the code uses.
`\d` is modelled as the ASCII digits and `str.strip` by
`Char.isWhitespace`, which agree with Python on all inputs the
document dialect produces.
-/

/-- Model of `p.isPrefixOf s` specialised to `List Char` (decidable, executable). -/
def leadsWith : List Char → List Char → Bool
  | [], _ => true
  | _ :: _, [] => false
  | p :: ps, c :: cs => p = c && leadsWith ps cs

/-- Python `pat in s`: `pat` occurs as a contiguous substring of `s`. -/
def containsSub (p : List Char) : List Char → Bool
  | [] => leadsWith p []
  | s@(_ :: rest) => leadsWith p s || containsSub p rest

/-- Python `str.strip()`. -/
def trim (l : List Char) : List Char :=
  ((l.dropWhile Char.isWhitespace).reverse.dropWhile Char.isWhitespace).reverse

/-- Python `content.split('\n')` (so `splitNl [] = [[]]`). -/
def splitNl : List Char → List (List Char)
  | [] => [[]]
  | c :: rest =>
    if c = '\n' then [] :: splitNl rest
    else
      match splitNl rest with
      | [] => [[c]]
      | l :: ls => (c :: l) :: ls

/-- Python `'\n'.join(lines)`. -/
def joinNl : List (List Char) → List Char
  | [] => []
  | [l] => l
  | l :: ls => l ++ '\n' :: joinNl ls

/-- Python `' '.join(lines)`. -/
def spaceJoin : List (List Char) → List Char
  | [] => []
  | [l] => l
  | l :: ls => l ++ ' ' :: spaceJoin ls

/-- Scanner for `len(re.findall(p, s))` with a literal pattern `p`:
count non-overlapping occurrences left to right; after a match the
remaining `p.length - 1` characters of the match are skipped via the
countdown argument. -/
def countOccAux (p : List Char) : Nat → List Char → Nat
  | _, [] => 0
  | 0, s@(_ :: rest) =>
    if leadsWith p s then 1 + countOccAux p (p.length - 1) rest
    else countOccAux p 0 rest
  | k + 1, _ :: rest => countOccAux p k rest

/-- Model of `len(re.findall(p, s))` for a literal pattern `p`. -/
def countOcc (p : List Char) (s : List Char) : Nat :=
  countOccAux p 0 s

/-- The importance glyphs the regex `(★★★|★★|★)` can capture. -/
inductive Importance where
  | three
  | two
  | one
deriving DecidableEq

/-- The exam-requirement tags `【单选】`, `【简答】`, `【论述】`. -/
inductive ExamReq where
  | danxuan
  | jianda
  | lunshu
deriving DecidableEq

/-- Keys of the global `exam_counts` dict:
`单选`, `简答`, `论述`, `综合`, `未标注`. -/
inductive ExamBucket where
  | danxuan
  | jianda
  | lunshu
  | combined
  | unmarked
deriving DecidableEq

/-- The fixed chapter list `CHAPTERS` as an enumerated type. -/
inductive Chapter where
  | daoyan
  | ch1
  | ch2
  | ch3
  | ch4
  | ch5
  | ch6
  | ch7
  | ch8
  | ch9
  | ch10
deriving DecidableEq

/-- The chapter label strings of the `CHAPTERS` list. -/
def chapterStr : Chapter → List Char
  | .daoyan => "导言".toList
  | .ch1 => "第一章".toList
  | .ch2 => "第二章".toList
  | .ch3 => "第三章".toList
  | .ch4 => "第四章".toList
  | .ch5 => "第五章".toList
  | .ch6 => "第六章".toList
  | .ch7 => "第七章".toList
  | .ch8 => "第八章".toList
  | .ch9 => "第九章".toList
  | .ch10 => "第十章".toList

/-- The `CHAPTERS` list, in source order. -/
def CHAPTERS : List Chapter :=
  [.daoyan, .ch1, .ch2, .ch3, .ch4, .ch5, .ch6, .ch7, .ch8, .ch9, .ch10]

/-- The `CHAPTER_NAMES` display-name table. -/
def chapterTitleStr : Chapter → List Char
  | .daoyan => "导言".toList
  | .ch1 => "进入近代后中华民族的磨难与抗争".toList
  | .ch2 => "不同社会力量对国家出路的早期探索".toList
  | .ch3 => "辛亥革命与君主专制制度的终结".toList
  | .ch4 => "中国共产党成立和中国革命新局面".toList
  | .ch5 => "中国革命的新道路".toList
  | .ch6 => "中华民族的抗日战争".toList
  | .ch7 => "为建立新中国而奋斗".toList
  | .ch8 => "中华人民共和国的成立与中国社会主义建设道路的探索".toList
  | .ch9 => "改革开放与中国特色社会主义的开创和发展".toList
  | .ch10 => "中国特色社会主义进入新时代".toList

/-- Model of `CHAPTER_NAMES.get(current_chapter, "")`. -/
def chapterNameOf : Option Chapter → List Char
  | some c => chapterTitleStr c
  | none => []

/-- Model of `re.search(r'第\d+页', line)`: somewhere in the line, `第`
followed by one or more digits followed by `页`. -/
def hasNumPage : List Char → Bool
  | [] => false
  | '第' :: rest =>
    (let ds := rest.takeWhile Char.isDigit
     (!ds.isEmpty &&
       match rest.drop ds.length with
       | '页' :: _ => true
       | _ => false))
    || hasNumPage rest
  | _ :: rest => hasNumPage rest

/-- Remainder of the line after its first `===` occurrence. -/
def afterTripleEq : List Char → Option (List Char)
  | '=' :: '=' :: '=' :: rest => some rest
  | _ :: rest => afterTripleEq rest
  | [] => none

/-- Model of `re.search(r'===.*===', line)` (the line holds no newline):
a `===` occurrence followed by a disjoint later `===` occurrence. -/
def hasEqDivider (l : List Char) : Bool :=
  match afterTripleEq l with
  | some rest => containsSub ('=' :: '=' :: '=' :: []) rest
  | none => false

/-- The page/divider test `re.search(r'第\d+页|===.*===', line)`. -/
def hasPageMarker (l : List Char) : Bool :=
  hasNumPage l || hasEqDivider l

/-- The chapter-detection loop
`for chapter in CHAPTERS: if chapter in line and re.search(...): break`:
the first chapter whose label occurs in a line that also carries a
page/divider marker. -/
def detectChapter (line : List Char) : Option Chapter :=
  CHAPTERS.find? fun ch => containsSub (chapterStr ch) line && hasPageMarker line

/-- Model of `any(ch in line and re.search(...) for ch in CHAPTERS)`
(the `next_chapter` test inside content accumulation). -/
def anyChapterMarker (line : List Char) : Bool :=
  CHAPTERS.any fun ch => containsSub (chapterStr ch) line && hasPageMarker line

/-- Model of `re.search(r'知识点(\d+)', line)`: digits of the first
`知识点` occurrence that is followed by at least one digit. -/
def findKpNum : List Char → Option (List Char)
  | [] => none
  | c :: rest =>
    match rest with
    | c2 :: c3 :: after =>
      if c = '知' && c2 = '识' && c3 = '点' then
        (let ds := after.takeWhile Char.isDigit
         if ds.isEmpty then findKpNum rest else some ds)
      else findKpNum rest
    | _ => findKpNum rest

/-- Model of `re.sub(r'知识点\d+', '', line)`: delete every `知识点` occurrence
together with its maximal following digit run. -/
def removeKpNumF : Nat → List Char → List Char
  | _, [] => []
  | 0, l => l
  | fuel + 1, c :: rest =>
    match c, rest with
    | '知', '识' :: '点' :: after =>
      (let ds := after.takeWhile Char.isDigit
       if ds.isEmpty then '知' :: removeKpNumF fuel rest
       else removeKpNumF fuel (after.drop ds.length))
    | _, _ => c :: removeKpNumF fuel rest

/-- Entry point: the fuel `l.length` suffices since each step consumes
at least one character. -/
def removeKpNum (l : List Char) : List Char :=
  removeKpNumF l.length l

/-- Scanner realising `re.sub(opn + '.*?' + cls, '', s)` for
single-character brackets: outside a group (`none`) characters are
kept; after an opening bracket the characters seen so far are buffered
(`some buf`, reversed) until the first closing bracket deletes the
group, and a group left unclosed at end of input is emitted verbatim. -/
def rbScan (opn cls : Char) : Option (List Char) → List Char → List Char
  | none, [] => []
  | some buf, [] => buf.reverse
  | none, x :: rest =>
    if x = opn then rbScan opn cls (some [x]) rest
    else x :: rbScan opn cls none rest
  | some buf, x :: rest =>
    if x = cls then rbScan opn cls none rest
    else rbScan opn cls (some (x :: buf)) rest

/-- Non-greedy removal of each bracket group, left to right. -/
def removeBracketGroups (opn cls : Char) (l : List Char) : List Char :=
  rbScan opn cls none l

/-- Model of `re.sub(r'★+', '', s)`. -/
def removeStars : List Char → List Char
  | [] => []
  | x :: rest => if x = '★' then removeStars rest else x :: removeStars rest

/-- Title derivation of `extract_knowledge_points` (lines 231–235):
strip the id label, square-bracket groups, full-width-bracket groups
and star runs, trimming after each step. -/
def cleanTitle (line : List Char) : List Char :=
  trim (removeStars (trim (removeBracketGroups '【' '】'
    (trim (removeBracketGroups '[' ']' (trim (removeKpNum line)))))))

/-- Model of `re.search(r'(★★★|★★|★)', line)`: at the first star glyph the
longest of the three alternatives wins. -/
def findStars : List Char → Option Importance
  | '★' :: '★' :: '★' :: _ => some .three
  | '★' :: '★' :: _ => some .two
  | '★' :: _ => some .one
  | _ :: rest => findStars rest
  | [] => none

/-- The three `if "【...】" in line` membership tests (lines 243–248). -/
def findReqs (line : List Char) : List ExamReq :=
  (if containsSub "【单选】".toList line then [ExamReq.danxuan] else []) ++
  (if containsSub "【简答】".toList line then [ExamReq.jianda] else []) ++
  (if containsSub "【论述】".toList line then [ExamReq.lunshu] else [])

/-- The knowledge-point marker test
`"知识点" in line and re.search(r'知识点\d+', line)`. -/
def isKpLine (line : List Char) : Bool :=
  containsSub "知识点".toList line && (findKpNum line).isSome

/-- The content test `line.strip() and not re.search(r'^\s*$', line)`. -/
def nonBlank (line : List Char) : Bool :=
  !(trim line).isEmpty && !(line.all Char.isWhitespace)

/-- Scanner for the quiz-marker count: alternatives tried in order at
each position, a match skipping its remaining three characters. -/
def countQMarksAux : Nat → List Char → Nat
  | _, [] => 0
  | 0, s@(_ :: rest) =>
    if leadsWith "【真题·".toList s then 1 + countQMarksAux 3 rest
    else if leadsWith "【模拟·".toList s then 1 + countQMarksAux 3 rest
    else countQMarksAux 0 rest
  | k + 1, _ :: rest => countQMarksAux k rest

/-- Model of `len(re.findall(r'【真题·|【模拟·', line))`: occurrences of either
four-character quiz marker, skipping the matched characters. -/
def countQMarks (l : List Char) : Nat :=
  countQMarksAux 0 l

/-- A knowledge-point record as built by `extract_knowledge_points`
(the temporary `content_lines` field is deleted before the record is
returned and is therefore not modelled). -/
structure KnowledgePoint where
  id : List Char
  title : List Char
  chapter : Option Chapter
  chapterName : List Char
  importance : Option Importance
  examRequirements : List ExamReq
  content : List (List Char)
  startLine : Nat
deriving DecidableEq

/-- The scan state of `extract_knowledge_points`:
`current_chapter`, `current_knowledge` and the output list. -/
structure ScanState where
  chapter : Option Chapter
  cur : Option KnowledgePoint
  acc : List KnowledgePoint
deriving DecidableEq

/-- The chapter-detection step at the top of the scan loop:
a detected chapter replaces `current_chapter`, otherwise it is kept. -/
def chapterUpdate (st : Option Chapter) (line : List Char) : Option Chapter :=
  match detectChapter line with
  | some c => some c
  | none => st

/-- Opening a knowledge point from its marker line (lines 226–261). -/
def newKp (ch : Option Chapter) (i : Nat) (line : List Char) : KnowledgePoint :=
  { id := (findKpNum line).getD ['0']
    title := cleanTitle line
    chapter := ch
    chapterName := chapterNameOf ch
    importance := findStars line
    examRequirements := findReqs line
    content := []
    startLine := i }

/-- Content accumulation (lines 272–280): append the trimmed line and,
when importance is still unset, scan the line for a star rating. -/
def addContent (k : KnowledgePoint) (line : List Char) : KnowledgePoint :=
  { k with
    content := k.content ++ [trim line]
    importance :=
      match k.importance with
      | some v => some v
      | none => findStars line }

/-- One iteration of the scan loop of `extract_knowledge_points`
(lines 213–280) on line `i`. -/
def scanLine (s : ScanState) (i : Nat) (line : List Char) : ScanState :=
  let ch := chapterUpdate s.chapter line
  if isKpLine line then
    { chapter := ch
      cur := some (newKp ch i line)
      acc := s.acc ++ s.cur.toList }
  else
    match s.cur with
    | some k =>
      if (findKpNum line).isSome || anyChapterMarker line then
        { chapter := ch, cur := none, acc := s.acc ++ [k] }
      else if nonBlank line then
        { chapter := ch, cur := some (addContent k line), acc := s.acc }
      else { chapter := ch, cur := some k, acc := s.acc }
    | none => { chapter := ch, cur := none, acc := s.acc }

/-- The scan loop, threading the line index. -/
def scanLines : ScanState → Nat → List (List Char) → ScanState
  | s, _, [] => s
  | s, i, l :: ls => scanLines (scanLine s i l) (i + 1) ls

/-- Model of `extract_knowledge_points`: run the scan from the empty state and
close the final in-progress record at end of input. -/
def extract_knowledge_points (lines : List (List Char)) : List KnowledgePoint :=
  let s := scanLines ⟨none, none, []⟩ 0 lines
  s.acc ++ s.cur.toList

/-- Star search over the first five content lines, first match wins
(the second pass at the top of `analyze_knowledge_distribution`). -/
def findStarsInContent : List (List Char) → Option Importance
  | [] => none
  | l :: ls =>
    match findStars l with
    | some v => some v
    | none => findStarsInContent ls

/-- The importance backfill applied to each knowledge point lacking a
rating (lines 298–305): scan only the first five content lines. -/
def backfillImportance (kp : KnowledgePoint) : KnowledgePoint :=
  match kp.importance with
  | some _ => kp
  | none => { kp with importance := findStarsInContent (kp.content.take 5) }

/-- Increment one key of a histogram represented as a function. -/
def bump [DecidableEq α] (m : α → Nat) (k : α) : α → Nat :=
  fun x => if x = k then m x + 1 else m x

/-- The `chapter_counts` loop (lines 308–311): a point is counted in
its chapter's bucket only when its chapter is a `chapter_counts` key,
so a `None` chapter is counted nowhere. -/
def chapterCounts (kps : List KnowledgePoint) : Chapter → Nat :=
  kps.foldl
    (fun m kp =>
      match kp.chapter with
      | some c => if CHAPTERS.contains c then bump m c else m
      | none => m)
    (fun _ => 0)

/-- The `importance_counts` loop (lines 314–320): the dict keys are the
three star strings plus `未标注`; `None` (and only `None`) falls into
the `未标注` bucket, modelled as the `none` key. -/
def importanceCounts (kps : List KnowledgePoint) : Option Importance → Nat :=
  kps.foldl (fun m kp => bump m kp.importance) (fun _ => 0)

/-- The bucket of the `exam_counts` inner loop for a single tag. -/
def reqBucket : ExamReq → ExamBucket
  | .danxuan => .danxuan
  | .jianda => .jianda
  | .lunshu => .lunshu

/-- The global `exam_counts` loop (lines 323–333): zero tags go to
`未标注`, two or more to `综合`, exactly one to that tag's bucket. -/
def examCounts (kps : List KnowledgePoint) : ExamBucket → Nat :=
  kps.foldl
    (fun m kp =>
      if kp.examRequirements.length = 0 then bump m .unmarked
      else if 1 < kp.examRequirements.length then bump m .combined
      else kp.examRequirements.foldl (fun m' r => bump m' (reqBucket r)) m)
    (fun _ => 0)

/-- The per-chapter `imp_dist` loop (lines 341–344): only the three
star keys exist, so an unset importance is counted in no bucket. -/
def impDist (kps : List KnowledgePoint) : Importance → Nat :=
  kps.foldl
    (fun m kp =>
      match kp.importance with
      | some v => bump m v
      | none => m)
    (fun _ => 0)

/-- The per-chapter `exam_dist` loop (lines 347–351): every tag of a
point bumps its own bucket, so a multi-tag point is counted in several
buckets at once. -/
def examDist (kps : List KnowledgePoint) : ExamReq → Nat :=
  kps.foldl
    (fun m kp => kp.examRequirements.foldl (fun m' r => bump m' r) m)
    (fun _ => 0)

/-- One entry of `chapter_details` (lines 353–357). -/
structure ChapterDetail where
  total : Nat
  importance : Importance → Nat
  examRequirements : ExamReq → Nat

/-- The result dict of `analyze_knowledge_distribution`. -/
structure KnowledgeStats where
  total : Nat
  byChapter : Chapter → Nat
  byImportance : Option Importance → Nat
  byExam : ExamBucket → Nat
  chapterDetails : Chapter → ChapterDetail

/-- Model of `analyze_knowledge_distribution` (lines 294–365): backfill missing
importance from content, then build the global and per-chapter
histograms. -/
def analyze_knowledge_distribution (kps0 : List KnowledgePoint) : KnowledgeStats :=
  let kps := kps0.map backfillImportance
  { total := kps.length
    byChapter := chapterCounts kps
    byImportance := importanceCounts kps
    byExam := examCounts kps
    chapterDetails := fun ch =>
      let ckps := kps.filter fun kp => kp.chapter = some ch
      { total := ckps.length
        importance := impDist ckps
        examRequirements := examDist ckps } }

/-- The chapter-attribution walk of `analyze_questions`
(lines 378–391): a second sequential pass over the lines, adding the
line's quiz-marker count to the current chapter once one is set. -/
def questionWalk : Option Chapter → (Chapter → Nat) → List (List Char) → Chapter → Nat
  | _, m, [] => m
  | st, m, l :: ls =>
    let st' := chapterUpdate st l
    let m' :=
      match st' with
      | some ch => fun c => if c = ch then m c + countQMarks l else m c
      | none => m
    questionWalk st' m' ls

/-- The chapter state after a sequential walk over some lines. -/
def chapterStateAfter (st : Option Chapter) (ls : List (List Char)) : Option Chapter :=
  ls.foldl chapterUpdate st

/-- The result dict of `analyze_questions`. -/
structure QuestionStats where
  total : Nat
  real : Nat
  mock : Nat
  answers : Nat
  explanations : Nat
  byChapter : Chapter → Nat

/-- Model of `analyze_questions` (lines 367–400): global marker counts over the
raw text, per-chapter counts by a sequential line walk. -/
def analyze_questions (content : List Char) : QuestionStats :=
  let lines := splitNl content
  let real := countOcc "【真题·".toList content
  let mock := countOcc "【模拟·".toList content
  { total := real + mock
    real := real
    mock := mock
    answers := countOcc "【答案】".toList content
    explanations := countOcc "【解析】".toList content
    byChapter := questionWalk none (fun _ => 0) lines }

/-- The part of the `analyze_content_features` result
(lines 402–406, 434) that the claims are about. -/
structure ContentStats where
  avgLength : ℚ

/-- Model of `analyze_content_features` average length: the summed length of the
space-joined content of each point, divided by the point count, with
the empty-list guard `... if self.knowledge_points else 0`. -/
def analyze_content_features (kps : List KnowledgePoint) : ContentStats :=
  let totalLength : Nat := (kps.map fun kp => (spaceJoin kp.content).length).sum
  { avgLength := if kps.isEmpty then 0 else (totalLength : ℚ) / (kps.length : ℚ) }

/-- Model of `_print_question_summary` (lines 611–612) divides by
`questions['total']` with no guard; the `ZeroDivisionError` raised when
no question exists is modelled as `none`. -/
def questionPercentages (q : QuestionStats) : Option (ℚ × ℚ) :=
  if q.total = 0 then none
  else some ((q.real : ℚ) / (q.total : ℚ) * 100, (q.mock : ℚ) / (q.total : ℚ) * 100)

/-- Model of `load_file` on an already-extracted text (lines 82–87): the file
I/O itself is external; once the source yields its text, loading fails
exactly on empty content. -/
def load_file (content : List Char) : Bool :=
  !content.isEmpty

/-- The stats gathered by `run_analysis` that the claims are about. -/
structure FullStats where
  knowledge : KnowledgeStats
  questions : QuestionStats
  contentFeatures : ContentStats

/-- Model of `run_analysis` (lines 440–462) over an already-extracted text:
abort with `(false, none)` when loading fails (the `stats` dict is
then left empty), otherwise run the scanner and the aggregators
(`analyze_knowledge_distribution` backfills importance in place before
`analyze_content_features` reads the points). -/
def run_analysis (content : List Char) : Bool × Option FullStats :=
  if load_file content then
    let lines := splitNl content
    let kps := extract_knowledge_points lines
    (true, some
      { knowledge := analyze_knowledge_distribution kps
        questions := analyze_questions content
        contentFeatures := analyze_content_features (kps.map backfillImportance) })
  else (false, none)

/-- The global exam bucket a single point falls into: zero tags to
`未标注`, one tag to its own bucket, several tags to `综合`. -/
def examBucketOf (kp : KnowledgePoint) : ExamBucket :=
  match kp.examRequirements with
  | [] => .unmarked
  | [r] => reqBucket r
  | _ => .combined

/-- The three importance keys of a per-chapter `imp_dist` dict. -/
def IMP_DIST_KEYS : List Importance := [.three, .two, .one]

/-- The four keys of the global `importance_counts` dict
(`none` is the `未标注` key). -/
def IMP_KEYS : List (Option Importance) := [some .three, some .two, some .one, none]

/-- The five keys of the global `exam_counts` dict. -/
def EXAM_KEYS : List ExamBucket := [.danxuan, .jianda, .lunshu, .combined, .unmarked]

/-- A line is a knowledge-point boundary for content collection:
the next marker line or the next chapter-marker line. -/
def boundaryLine (line : List Char) : Bool :=
  isKpLine line || anyChapterMarker line

/-- The exact content segment the spec prescribes for a point opened at
line `start`: the trimmed non-blank lines strictly between the marker
line and the next boundary or end of input. -/
def contentSegment (lines : List (List Char)) (start : Nat) : List (List Char) :=
  ((((lines.drop (start + 1)).takeWhile fun l => !boundaryLine l).filter
    nonBlank).map trim)

/-- A one-line input whose single knowledge point precedes every
chapter marker, so its chapter is `None`. -/
def linesNoChapter : List (List Char) :=
  ["知识点1 甲午战争".toList]

/-- The two-line scenario input of the spec: a chapter-marker line
followed by the marker line `知识点1 [识记] 历史背景★★★【单选】`. -/
def linesScenario : List (List Char) :=
  ["第一章 进入近代后中华民族的磨难与抗争 第1页".toList,
   "知识点1 [识记] 历史背景★★★【单选】".toList]

/-- The knowledge point the scenario input must produce. -/
def kpScenario : KnowledgePoint :=
  { id := "1".toList
    title := "历史背景".toList
    chapter := some .ch1
    chapterName := "进入近代后中华民族的磨难与抗争".toList
    importance := some .three
    examRequirements := [.danxuan]
    content := []
    startLine := 1 }

/-- A five-line input used to exhibit content segmentation: the first
point's content is the trimmed non-blank lines before the next marker. -/
def linesSegmented : List (List Char) :=
  ["知识点1 甲".toList, " 乙丙 ".toList, "   ".toList, "丁".toList,
   "知识点2 戊".toList]

/-- The first knowledge point of `linesSegmented`. -/
def kpSegmented : KnowledgePoint :=
  { id := "1".toList
    title := "甲".toList
    chapter := none
    chapterName := []
    importance := none
    examRequirements := []
    content := ["乙丙".toList, "丁".toList]
    startLine := 0 }

/-- An input whose single knowledge point carries no star anywhere, so
its per-chapter importance buckets undercount the chapter total. -/
def linesUnstarred : List (List Char) :=
  ["第一章 进入近代后中华民族的磨难与抗争 第1页".toList,
   "知识点1 甲".toList, "乙内容".toList]

/-- A knowledge point carrying two exam tags, used to exhibit the
global/per-chapter exam-count asymmetry. -/
def kpTwoTags : KnowledgePoint :=
  { id := "7".toList
    title := "甲".toList
    chapter := some .ch1
    chapterName := "进入近代后中华民族的磨难与抗争".toList
    importance := some .one
    examRequirements := [.danxuan, .jianda]
    content := []
    startLine := 0 }

/-- A chapter line followed by a quiz line holding one real and one
mock marker. -/
def linesQuiz : List (List Char) :=
  ["第一章 进入近代后中华民族的磨难与抗争 第1页".toList]

/-- The quiz line of the two-marker scenario. -/
def quizLine : List Char :=
  "【真题·2019】甲【模拟·2020】乙".toList

/-- A knowledge point with content of space-joined length four. -/
def kpLenFour : KnowledgePoint :=
  { id := "1".toList
    title := "甲".toList
    chapter := none
    chapterName := []
    importance := none
    examRequirements := []
    content := ["ab".toList, "c".toList]
    startLine := 0 }

/-- Question stats with no questions at all. -/
def qStatsZero : QuestionStats :=
  { total := 0, real := 0, mock := 0, answers := 0, explanations := 0
    byChapter := fun _ => 0 }

/-- Question stats with one real and one mock question. -/
def qStatsTwo : QuestionStats :=
  { total := 2, real := 1, mock := 1, answers := 2, explanations := 2
    byChapter := fun _ => 0 }

theorem backfill_chapter (kp : KnowledgePoint) :
    (backfillImportance kp).chapter = kp.chapter := by
  unfold backfillImportance
  cases kp.importance <;> rfl

theorem backfill_reqs (kp : KnowledgePoint) :
    (backfillImportance kp).examRequirements = kp.examRequirements := by
  unfold backfillImportance
  cases kp.importance <;> rfl

theorem backfill_length (kps : List KnowledgePoint) :
    (kps.map backfillImportance).length = kps.length :=
  List.length_map ..

theorem examBucketOf_backfill (kp : KnowledgePoint) :
    examBucketOf (backfillImportance kp) = examBucketOf kp := by
  unfold examBucketOf
  rw [backfill_reqs]

theorem chapters_contains (c : Chapter) : CHAPTERS.contains c = true := by
  cases c <;> rfl

theorem sum_bump_chapters (m : Chapter → Nat) (c : Chapter) :
    (CHAPTERS.map (bump m c)).sum = (CHAPTERS.map m).sum + 1 := by
  cases c <;> simp [CHAPTERS, bump] <;> omega

theorem sum_bump_impKeys (m : Option Importance → Nat) (v : Option Importance) :
    (IMP_KEYS.map (bump m v)).sum = (IMP_KEYS.map m).sum + 1 := by
  rcases v with _ | i
  · simp [IMP_KEYS, bump]
    omega
  · cases i <;> simp [IMP_KEYS, bump] <;> omega

theorem sum_bump_examKeys (m : ExamBucket → Nat) (b : ExamBucket) :
    (EXAM_KEYS.map (bump m b)).sum = (EXAM_KEYS.map m).sum + 1 := by
  cases b <;> simp [EXAM_KEYS, bump] <;> omega

theorem sum_bump_impDistKeys (m : Importance → Nat) (v : Importance) :
    (IMP_DIST_KEYS.map (bump m v)).sum = (IMP_DIST_KEYS.map m).sum + 1 := by
  cases v <;> simp [IMP_DIST_KEYS, bump] <;> omega

theorem sum_chapterCounts_aux (kps : List KnowledgePoint) :
    ∀ m : Chapter → Nat,
      (CHAPTERS.map (kps.foldl
        (fun m' kp =>
          match kp.chapter with
          | some c => if CHAPTERS.contains c then bump m' c else m'
          | none => m') m)).sum
      = (CHAPTERS.map m).sum + kps.countP (fun kp => kp.chapter.isSome) := by
  induction kps with
  | nil => simp
  | cons kp kps ih =>
    intro m
    rw [List.foldl_cons, List.countP_cons, ih]
    rcases h : kp.chapter with _ | c
    · simp [h]
    · simp only [h, chapters_contains, if_true, sum_bump_chapters, Option.isSome]
      omega

theorem sum_chapterCounts (kps : List KnowledgePoint) :
    (CHAPTERS.map (chapterCounts kps)).sum
      = kps.countP (fun kp => kp.chapter.isSome) := by
  have h := sum_chapterCounts_aux kps (fun _ => 0)
  simpa [chapterCounts] using h

theorem sum_importanceCounts_aux (kps : List KnowledgePoint) :
    ∀ m : Option Importance → Nat,
      (IMP_KEYS.map (kps.foldl (fun m' kp => bump m' kp.importance) m)).sum
        = (IMP_KEYS.map m).sum + kps.length := by
  induction kps with
  | nil => simp
  | cons kp kps ih =>
    intro m
    rw [List.foldl_cons, ih, sum_bump_impKeys]
    simp
    omega

theorem sum_importanceCounts (kps : List KnowledgePoint) :
    (IMP_KEYS.map (importanceCounts kps)).sum = kps.length := by
  have h := sum_importanceCounts_aux kps (fun _ => 0)
  simpa [importanceCounts] using h

theorem examDist_inner (reqs : List ExamReq) :
    ∀ (m : ExamReq → Nat) (r : ExamReq),
      (reqs.foldl (fun m' r' => bump m' r') m) r = m r + reqs.count r := by
  induction reqs with
  | nil => simp
  | cons r0 rest ih =>
    intro m r
    rw [List.foldl_cons, ih, List.count_cons]
    by_cases h : r = r0
    · subst h
      simp [bump]
      omega
    · simp [bump, h, Ne.symm h]

theorem examCounts_aux (kps : List KnowledgePoint) :
    ∀ (m : ExamBucket → Nat) (b : ExamBucket),
      (kps.foldl
        (fun m' kp =>
          if kp.examRequirements.length = 0 then bump m' .unmarked
          else if 1 < kp.examRequirements.length then bump m' .combined
          else kp.examRequirements.foldl (fun m'' r => bump m'' (reqBucket r)) m') m) b
      = m b + kps.countP (fun kp => examBucketOf kp == b) := by
  induction kps with
  | nil => simp
  | cons kp kps ih =>
    intro m b
    rw [List.foldl_cons, List.countP_cons, ih]
    have hstep :
        (if kp.examRequirements.length = 0 then bump m .unmarked
         else if 1 < kp.examRequirements.length then bump m .combined
         else kp.examRequirements.foldl (fun m'' r => bump m'' (reqBucket r)) m) b
        = m b + (if examBucketOf kp == b then 1 else 0) := by
      rcases hr : kp.examRequirements with _ | ⟨r, _ | ⟨r2, rest⟩⟩
      · have hbk : examBucketOf kp = ExamBucket.unmarked := by
          unfold examBucketOf
          rw [hr]
        rw [hbk]
        simp only [List.length_nil, if_pos rfl]
        cases b <;> simp [bump]
      · have hbk : examBucketOf kp = reqBucket r := by
          unfold examBucketOf
          rw [hr]
        rw [hbk]
        simp only [List.length_cons, List.length_nil, List.foldl_cons, List.foldl_nil]
        rw [if_neg (by omega), if_neg (by omega)]
        cases r <;> cases b <;> simp [bump, reqBucket]
      · have hbk : examBucketOf kp = ExamBucket.combined := by
          unfold examBucketOf
          rw [hr]
        rw [hbk]
        simp only [List.length_cons]
        rw [if_neg (by omega), if_pos (by omega)]
        cases b <;> simp [bump]
    rw [hstep]
    omega

theorem examCounts_eq (kps : List KnowledgePoint) (b : ExamBucket) :
    examCounts kps b = kps.countP (fun kp => examBucketOf kp == b) := by
  have h := examCounts_aux kps (fun _ => 0) b
  simpa [examCounts] using h

theorem sum_examCounts (kps : List KnowledgePoint) :
    (EXAM_KEYS.map (examCounts kps)).sum = kps.length := by
  induction kps with
  | nil => simp [EXAM_KEYS, examCounts]
  | cons kp kps ih =>
    have hone : (EXAM_KEYS.map (fun b =>
        (if examBucketOf kp == b then 1 else 0 : Nat))).sum = 1 := by
      rcases hr : kp.examRequirements with _ | ⟨r, _ | ⟨r2, rest⟩⟩
      · have hbk : examBucketOf kp = ExamBucket.unmarked := by
          unfold examBucketOf
          rw [hr]
        rw [hbk]
        decide
      · have hbk : examBucketOf kp = reqBucket r := by
          unfold examBucketOf
          rw [hr]
        rw [hbk]
        cases r <;> decide
      · have hbk : examBucketOf kp = ExamBucket.combined := by
          unfold examBucketOf
          rw [hr]
        rw [hbk]
        decide
    have hmap : ∀ b, examCounts (kp :: kps) b
        = examCounts kps b + (if examBucketOf kp == b then 1 else 0) := by
      intro b
      rw [examCounts_eq, examCounts_eq, List.countP_cons]
    calc (EXAM_KEYS.map (examCounts (kp :: kps))).sum
        = (EXAM_KEYS.map (fun b => examCounts kps b
            + (if examBucketOf kp == b then 1 else 0))).sum := by
          exact congrArg List.sum (List.map_congr_left fun b _ => hmap b)
      _ = (EXAM_KEYS.map (examCounts kps)).sum
            + (EXAM_KEYS.map (fun b =>
                (if examBucketOf kp == b then 1 else 0 : Nat))).sum := by
          simp [EXAM_KEYS]
          omega
      _ = kps.length + 1 := by rw [ih, hone]
      _ = (kp :: kps).length := by simp

theorem examDist_eq (kps : List KnowledgePoint) (r : ExamReq) :
    examDist kps r = (kps.map fun kp => kp.examRequirements.count r).sum := by
  unfold examDist
  induction kps with
  | nil => rfl
  | cons kp kps ih =>
    rw [List.map_cons, List.sum_cons, List.foldl_cons]
    have aux : ∀ (kps' : List KnowledgePoint) (m m' : ExamReq → Nat),
        (∀ x, m x = m' x + kp.examRequirements.count x) →
        kps'.foldl (fun acc p => p.examRequirements.foldl (fun a q => bump a q) acc) m r
          = kps'.foldl (fun acc p => p.examRequirements.foldl (fun a q => bump a q) acc) m' r
            + kp.examRequirements.count r := by
      intro kps'
      induction kps' with
      | nil => intro m m' h; exact h r
      | cons p ps ihp =>
        intro m m' h
        rw [List.foldl_cons, List.foldl_cons]
        refine ihp _ _ fun x => ?_
        rw [examDist_inner, examDist_inner, h x]
        omega
    rw [aux kps _ (fun _ => 0) fun x => by rw [examDist_inner], ih]
    omega

theorem impDist_aux (kps : List KnowledgePoint) :
    ∀ m : Importance → Nat,
      (IMP_DIST_KEYS.map (kps.foldl
        (fun m' kp =>
          match kp.importance with
          | some v => bump m' v
          | none => m') m)).sum
      = (IMP_DIST_KEYS.map m).sum + kps.countP (fun kp => kp.importance.isSome) := by
  induction kps with
  | nil => simp
  | cons kp kps ih =>
    intro m
    rw [List.foldl_cons, List.countP_cons, ih]
    rcases h : kp.importance with _ | v
    · simp [h]
    · simp [h, sum_bump_impDistKeys]
      omega

theorem sum_impDist (kps : List KnowledgePoint) :
    (IMP_DIST_KEYS.map (impDist kps)).sum
      = kps.countP (fun kp => kp.importance.isSome) := by
  have h := impDist_aux kps (fun _ => 0)
  simpa [impDist] using h

theorem countP_some_none (kps : List KnowledgePoint) :
    kps.countP (fun kp => kp.importance.isSome)
      + kps.countP (fun kp => kp.importance == none) = kps.length := by
  induction kps with
  | nil => rfl
  | cons kp kps ih =>
    rw [List.countP_cons, List.countP_cons]
    rcases h : kp.importance with _ | v <;> simp [h] <;> omega

theorem countP_chapter_split (kps : List KnowledgePoint) :
    kps.countP (fun kp => kp.chapter.isSome)
      + kps.countP (fun kp => kp.chapter == none) = kps.length := by
  induction kps with
  | nil => rfl
  | cons kp kps ih =>
    rw [List.countP_cons, List.countP_cons]
    rcases h : kp.chapter with _ | v <;> simp [h] <;> omega

theorem countP_map_backfill (kps : List KnowledgePoint)
    (p : KnowledgePoint → Bool) (q : KnowledgePoint → Bool)
    (h : ∀ kp, p (backfillImportance kp) = q kp) :
    (kps.map backfillImportance).countP p = kps.countP q := by
  rw [List.countP_map]
  exact List.countP_congr fun kp _ => by simp [Function.comp, h kp]

/-- C1, counterexample: on the input whose single knowledge point
precedes every chapter marker, the per-chapter counts sum to 0 while
the total is 1, so the claimed equality `Σ by_chapter = total` fails. -/
theorem claim_C1_counterexample :
    (CHAPTERS.map (analyze_knowledge_distribution
        (extract_knowledge_points linesNoChapter)).byChapter).sum
      ≠ (analyze_knowledge_distribution
        (extract_knowledge_points linesNoChapter)).total := by
  decide

/-- C1, amended: for every input, the per-chapter knowledge-point
counts sum to the number of points with a non-null chapter; adding the
null-chapter points (excluded from every bucket) recovers the total. -/
theorem claim_C1 (lines : List (List Char)) :
    (CHAPTERS.map (analyze_knowledge_distribution
        (extract_knowledge_points lines)).byChapter).sum
      + (extract_knowledge_points lines).countP (fun kp => kp.chapter == none)
      = (analyze_knowledge_distribution (extract_knowledge_points lines)).total := by
  show (CHAPTERS.map (chapterCounts
      ((extract_knowledge_points lines).map backfillImportance))).sum + _ = _
  rw [sum_chapterCounts]
  rw [countP_map_backfill _ _ (fun kp => kp.chapter.isSome)
    (fun kp => by rw [backfill_chapter])]
  show _ = ((extract_knowledge_points lines).map backfillImportance).length
  rw [backfill_length]
  exact countP_chapter_split (extract_knowledge_points lines)

/-- C4: in the global exam-requirement count every knowledge point is
counted in exactly one bucket — `未标注` for zero tags, the tag's own
bucket for one tag, `综合` for several — and the five buckets sum to
the total point count. -/
theorem claim_C4 (kps : List KnowledgePoint) :
    (∀ b, (analyze_knowledge_distribution kps).byExam b
        = kps.countP (fun kp => examBucketOf kp == b))
    ∧ (EXAM_KEYS.map (analyze_knowledge_distribution kps).byExam).sum
        = (analyze_knowledge_distribution kps).total := by
  constructor
  · intro b
    show examCounts (kps.map backfillImportance) b = _
    rw [examCounts_eq]
    exact countP_map_backfill _ _ _ fun kp => by rw [examBucketOf_backfill]
  · show (EXAM_KEYS.map (examCounts (kps.map backfillImportance))).sum
        = (kps.map backfillImportance).length
    exact sum_examCounts _

/-- C6: on the scenario input — a chapter-marker line for `第一章`
with a page marker, then the line `知识点1 [识记] 历史背景★★★【单选】`
— the scanner emits exactly one knowledge point with id `1`, cleaned
title `历史背景`, that chapter, three-star importance, and the single
exam requirement `单选`. -/
theorem claim_C6 :
    extract_knowledge_points linesScenario = [kpScenario] := by
  decide

/-- C8: on empty input text the load step fails with the empty-content
error and the run aborts with no statistics produced. -/
theorem claim_C8 :
    load_file [] = false ∧ run_analysis [] = (false, none) := by
  constructor
  · rfl
  · rfl

/-- C10: a per-chapter importance histogram has only the three star
buckets, so its buckets sum to the chapter total minus the points whose
importance stayed unset after the backfill; the global histogram, with
its explicit `未标注` bucket, sums to the overall total. On the
`linesUnstarred` input the per-chapter buckets sum to strictly less
than the chapter total. -/
theorem claim_C10 :
    (∀ (kps : List KnowledgePoint) (ch : Chapter),
      ((analyze_knowledge_distribution kps).chapterDetails ch).total
        = (IMP_DIST_KEYS.map
            ((analyze_knowledge_distribution kps).chapterDetails ch).importance).sum
          + ((kps.map backfillImportance).filter
              (fun kp => kp.chapter = some ch)).countP
              (fun kp => kp.importance == none)
      ∧ (IMP_KEYS.map (analyze_knowledge_distribution kps).byImportance).sum
          = (analyze_knowledge_distribution kps).total)
    ∧ (IMP_DIST_KEYS.map ((analyze_knowledge_distribution
          (extract_knowledge_points linesUnstarred)).chapterDetails
            Chapter.ch1).importance).sum
        < ((analyze_knowledge_distribution
          (extract_knowledge_points linesUnstarred)).chapterDetails
            Chapter.ch1).total := by
  constructor
  · intro kps ch
    constructor
    · show ((kps.map backfillImportance).filter
          (fun kp => kp.chapter = some ch)).length
        = (IMP_DIST_KEYS.map (impDist ((kps.map backfillImportance).filter
            (fun kp => kp.chapter = some ch)))).sum + _
      rw [sum_impDist]
      have h := countP_some_none ((kps.map backfillImportance).filter
        (fun kp => kp.chapter = some ch))
      omega
    · show (IMP_KEYS.map (importanceCounts (kps.map backfillImportance))).sum
          = (kps.map backfillImportance).length
      exact sum_importanceCounts _
  · decide

theorem containsSub_cons (p : List Char) (c : Char) (rest : List Char) :
    containsSub p (c :: rest) = (leadsWith p (c :: rest) || containsSub p rest) := rfl

theorem takeWhileAll {α} (p : α → Bool) :
    ∀ l : List α, (∀ x ∈ l, p x = true) → l.takeWhile p = l := by
  intro l
  induction l with
  | nil => intro _; rfl
  | cons x xs ih =>
    intro h
    rw [List.takeWhile_cons, h x (by simp), ih fun y hy => h y (by simp [hy])]
    simp

theorem takeWhileStop {α} (p : α → Bool) (l : α) (rest : List α) :
    ∀ mid : List α, (∀ x ∈ mid, p x = true) → p l = false →
      (mid ++ l :: rest).takeWhile p = mid := by
  intro mid
  induction mid with
  | nil => intro _ hl; simp [List.takeWhile_cons, hl]
  | cons x xs ih =>
    intro h hl
    rw [List.cons_append, List.takeWhile_cons, h x (by simp),
      ih (fun y hy => h y (by simp [hy])) hl]
    simp

theorem findKpNum_contains :
    ∀ l : List Char, (findKpNum l).isSome = true →
      containsSub "知识点".toList l = true := by
  intro l
  induction l with
  | nil => simp [findKpNum]
  | cons c rest ih =>
    intro h
    rw [containsSub_cons]
    rcases rest with _ | ⟨c2, rest2⟩
    · simp [findKpNum] at h
    · rcases rest2 with _ | ⟨c3, after⟩
      · have hred : findKpNum (c :: [c2]) = findKpNum [c2] := by
          simp only [findKpNum]
        rw [hred] at h
        rw [ih h]
        simp
      · by_cases hb : (c = '知' && c2 = '识' && c3 = '点') = true
        · simp only [Bool.and_eq_true, decide_eq_true_eq] at hb
          obtain ⟨⟨h1, h2⟩, h3⟩ := hb
          subst h1
          subst h2
          subst h3
          have hl : leadsWith "知识点".toList ('知' :: '识' :: '点' :: after) = true := by
            simp [leadsWith]
          rw [hl]
          simp
        · have hred : findKpNum (c :: c2 :: c3 :: after)
              = findKpNum (c2 :: c3 :: after) := by
            simp only [findKpNum]
            rw [if_neg]
            simp [hb]
          rw [hred] at h
          rw [ih h]
          simp

theorem boundary_of_finalize (line : List Char) (h1 : isKpLine line = false)
    (h2 : ((findKpNum line).isSome || anyChapterMarker line) = true) :
    boundaryLine line = true := by
  unfold boundaryLine
  rw [h1]
  rcases Bool.or_eq_true_iff.mp h2 with h | h
  · exfalso
    have hcont := findKpNum_contains line h
    have hkl : isKpLine line = true := by
      unfold isKpLine
      rw [hcont, h]
      rfl
    rw [h1] at hkl
    exact Bool.false_ne_true hkl
  · simp [h]

theorem boundary_of_content (line : List Char) (h1 : isKpLine line = false)
    (h2 : ((findKpNum line).isSome || anyChapterMarker line) = false) :
    boundaryLine line = false := by
  unfold boundaryLine
  rw [h1]
  simp only [Bool.or_eq_false_iff] at h2
  simp [h2.2]

theorem scanLines_count (ls : List (List Char)) :
    ∀ (s : ScanState) (i : Nat),
      (scanLines s i ls).acc.length + (scanLines s i ls).cur.toList.length
        = s.acc.length + s.cur.toList.length + ls.countP isKpLine := by
  induction ls with
  | nil => intro s i; simp [scanLines]
  | cons l ls ih =>
    intro s i
    have hstep : scanLines s i (l :: ls) = scanLines (scanLine s i l) (i + 1) ls := rfl
    rw [hstep, ih, List.countP_cons]
    by_cases h1 : isKpLine l
    · cases hc : s.cur <;> simp [scanLine, h1, hc] <;> omega
    · cases hc : s.cur
      · simp [scanLine, h1, hc]
      · by_cases h2 : ((findKpNum l).isSome || anyChapterMarker l) = true
        · simp [scanLine, h1, hc, h2]
        · by_cases h3 : nonBlank l = true <;>
            simp [scanLine, h1, hc, h2, h3]

/-- C2: for every input, the scanner emits exactly one knowledge-point
record per marker line — a line containing `知识点` followed by an id —
the last record being closed at end of input. -/
theorem claim_C2 (lines : List (List Char)) :
    (extract_knowledge_points lines).length = lines.countP isKpLine := by
  unfold extract_knowledge_points
  rw [List.length_append]
  have h := scanLines_count lines ⟨none, none, []⟩ 0
  simpa using h

theorem scan_content_aux (all : List (List Char)) :
    ∀ (ls : List (List Char)) (i : Nat) (s : ScanState),
      all.drop i = ls →
      (∀ kp ∈ s.acc, kp.content = contentSegment all kp.startLine) →
      (∀ k, s.cur = some k → ∃ mid,
          all.drop (k.startLine + 1) = mid ++ ls
          ∧ (∀ l ∈ mid, boundaryLine l = false)
          ∧ k.content = (mid.filter nonBlank).map trim) →
      ∀ kp ∈ (scanLines s i ls).acc ++ (scanLines s i ls).cur.toList,
        kp.content = contentSegment all kp.startLine := by
  intro ls
  induction ls with
  | nil =>
    intro i s _ hacc hcur kp hmem
    rw [scanLines] at hmem
    rcases List.mem_append.mp hmem with h | h
    · exact hacc kp h
    · rcases hc : s.cur with _ | k
      · rw [hc] at h; simp at h
      · rw [hc] at h
        simp only [Option.toList_some, List.mem_singleton] at h
        subst h
        obtain ⟨mid, hmid, hbd, hcont⟩ := hcur kp hc
        rw [List.append_nil] at hmid
        unfold contentSegment
        rw [hmid, takeWhileAll _ mid (fun x hx => by simp [hbd x hx]), hcont]
  | cons l ls ih =>
    intro i s hdrop hacc hcur
    have h1 : all.drop (i + 1) = ls := by
      rw [← List.tail_drop, hdrop]
      rfl
    have hstep : scanLines s i (l :: ls) = scanLines (scanLine s i l) (i + 1) ls := rfl
    rw [hstep]
    by_cases hkp : isKpLine l
    · -- marker line: finalize any current point, open a new one
      have hbl : boundaryLine l = true := by simp [boundaryLine, hkp]
      refine ih (i + 1) _ h1 ?_ ?_
      · intro kp hmem
        have : kp ∈ s.acc ++ s.cur.toList := by
          simpa [scanLine, hkp] using hmem
        rcases List.mem_append.mp this with h | h
        · exact hacc kp h
        · rcases hc : s.cur with _ | k
          · rw [hc] at h; simp at h
          · rw [hc] at h
            simp only [Option.toList_some, List.mem_singleton] at h
            subst h
            obtain ⟨mid, hmid, hbd, hcont⟩ := hcur kp hc
            unfold contentSegment
            rw [hmid, takeWhileStop _ l ls mid
              (fun x hx => by simp [hbd x hx]) (by simp [hbl]), hcont]
      · intro k hk
        have : k = newKp (chapterUpdate s.chapter l) i l := by
          have : (scanLine s i l).cur = some (newKp (chapterUpdate s.chapter l) i l) := by
            simp [scanLine, hkp]
          rw [this] at hk
          exact (Option.some.injEq _ _ ▸ hk).symm
        subst this
        exact ⟨[], by simpa [newKp] using h1, by simp, by simp [newKp]⟩
    · rcases hc : s.cur with _ | k
      · -- no point in progress: state only tracks the chapter
        refine ih (i + 1) _ h1 ?_ ?_
        · intro kp hmem
          have : kp ∈ s.acc := by simpa [scanLine, hkp, hc] using hmem
          exact hacc kp this
        · intro k hk
          have : (scanLine s i l).cur = none := by simp [scanLine, hkp, hc]
          rw [this] at hk
          exact absurd hk (by simp)
      · by_cases hfin : ((findKpNum l).isSome || anyChapterMarker l) = true
        · -- boundary line: finalize the current point
          have hbl : boundaryLine l = true := boundary_of_finalize l (by simpa using hkp) hfin
          refine ih (i + 1) _ h1 ?_ ?_
          · intro kp hmem
            have : kp ∈ s.acc ++ [k] := by
              simpa [scanLine, hkp, hc, hfin] using hmem
            rcases List.mem_append.mp this with h | h
            · exact hacc kp h
            · simp only [List.mem_singleton] at h
              subst h
              obtain ⟨mid, hmid, hbd, hcont⟩ := hcur kp hc
              unfold contentSegment
              rw [hmid, takeWhileStop _ l ls mid
                (fun x hx => by simp [hbd x hx]) (by simp [hbl]), hcont]
          · intro k' hk'
            have : (scanLine s i l).cur = none := by simp [scanLine, hkp, hc, hfin]
            rw [this] at hk'
            exact absurd hk' (by simp)
        · -- content or blank line: the point stays open
          have hbl : boundaryLine l = false :=
            boundary_of_content l (by simpa using hkp) (by simpa using hfin)
          obtain ⟨mid, hmid, hbd, hcont⟩ := hcur k hc
          by_cases hnb : nonBlank l = true
          · refine ih (i + 1) _ h1 ?_ ?_
            · intro kp hmem
              have : kp ∈ s.acc := by simpa [scanLine, hkp, hc, hfin, hnb] using hmem
              exact hacc kp this
            · intro k' hk'
              have : (scanLine s i l).cur = some (addContent k l) := by
                simp [scanLine, hkp, hc, hfin, hnb]
              rw [this] at hk'
              have hk'' : k' = addContent k l := by
                exact (Option.some.injEq _ _ ▸ hk').symm
              subst hk''
              refine ⟨mid ++ [l], ?_, ?_, ?_⟩
              · rw [List.append_assoc]
                simpa using hmid
              · intro x hx
                rcases List.mem_append.mp hx with h | h
                · exact hbd x h
                · simp only [List.mem_singleton] at h
                  subst h
                  exact hbl
              · show (addContent k l).content = _
                rw [List.filter_append, List.map_append]
                simp only [addContent]
                rw [hcont]
                simp [hnb]
          · refine ih (i + 1) _ h1 ?_ ?_
            · intro kp hmem
              have : kp ∈ s.acc := by simpa [scanLine, hkp, hc, hfin, hnb] using hmem
              exact hacc kp this
            · intro k' hk'
              have : (scanLine s i l).cur = some k := by
                simp [scanLine, hkp, hc, hfin, hnb]
              rw [this] at hk'
              have hk'' : k' = k := by
                exact (Option.some.injEq _ _ ▸ hk').symm
              subst hk''
              refine ⟨mid ++ [l], ?_, ?_, ?_⟩
              · rw [List.append_assoc]
                simpa using hmid
              · intro x hx
                rcases List.mem_append.mp hx with h | h
                · exact hbd x h
                · simp only [List.mem_singleton] at h
                  subst h
                  exact hbl
              · rw [List.filter_append, List.map_append]
                rw [hcont]
                have : nonBlank l = false := by simpa using hnb
                simp [this]

/-- C3: every emitted knowledge point's content lines are exactly the
trimmed non-blank lines lying strictly between its marker line and the
next marker line, chapter-marker line, or end of input. -/
theorem claim_C3 (lines : List (List Char)) (kp : KnowledgePoint)
    (hmem : kp ∈ extract_knowledge_points lines) :
    kp.content = contentSegment lines kp.startLine := by
  refine scan_content_aux lines lines 0 ⟨none, none, []⟩ (by simp) ?_ ?_ kp hmem
  · intro kp h
    exact absurd h (by simp)
  · intro k hk
    exact absurd hk (by simp)

/-- C3 witness: instantiated on `linesSegmented`, the first point's
content is exactly `["乙丙", "丁"]`, the trimmed non-blank lines before
the second marker. -/
theorem claim_C3_witness :
    kpSegmented.content = contentSegment linesSegmented kpSegmented.startLine :=
  claim_C3 linesSegmented kpSegmented (by decide)

theorem examBucketOf_multi (kp : KnowledgePoint)
    (h : 2 ≤ kp.examRequirements.length) : examBucketOf kp = .combined := by
  rcases hr : kp.examRequirements with _ | ⟨r, _ | ⟨r2, rest⟩⟩
  · rw [hr] at h; simp at h
  · rw [hr] at h; simp at h
  · unfold examBucketOf
    rw [hr]

/-- C5: in the per-chapter breakdown a knowledge point with several
exam tags bumps each of its tags' per-chapter buckets at once, while
the global exam count sends the same point only to the `综合` bucket,
leaving every single-tag bucket and the `未标注` bucket untouched. -/
theorem claim_C5 (l1 l2 : List KnowledgePoint) (kp : KnowledgePoint) (ch : Chapter)
    (hch : kp.chapter = some ch) (hnd : kp.examRequirements.Nodup)
    (hmulti : 2 ≤ kp.examRequirements.length) :
    (∀ r ∈ kp.examRequirements,
      ((analyze_knowledge_distribution (l1 ++ kp :: l2)).chapterDetails ch).examRequirements r
        = ((analyze_knowledge_distribution (l1 ++ l2)).chapterDetails ch).examRequirements r + 1)
    ∧ (analyze_knowledge_distribution (l1 ++ kp :: l2)).byExam .combined
        = (analyze_knowledge_distribution (l1 ++ l2)).byExam .combined + 1
    ∧ (∀ q : ExamReq,
        (analyze_knowledge_distribution (l1 ++ kp :: l2)).byExam (reqBucket q)
          = (analyze_knowledge_distribution (l1 ++ l2)).byExam (reqBucket q))
    ∧ (analyze_knowledge_distribution (l1 ++ kp :: l2)).byExam .unmarked
        = (analyze_knowledge_distribution (l1 ++ l2)).byExam .unmarked := by
  have hbk : examBucketOf kp = .combined := examBucketOf_multi kp hmulti
  have hByExam : ∀ b, (analyze_knowledge_distribution (l1 ++ kp :: l2)).byExam b
      = (analyze_knowledge_distribution (l1 ++ l2)).byExam b
        + (if examBucketOf kp == b then 1 else 0) := by
    intro b
    show examCounts ((l1 ++ kp :: l2).map backfillImportance) b
      = examCounts ((l1 ++ l2).map backfillImportance) b + _
    rw [examCounts_eq, examCounts_eq,
      countP_map_backfill _ _ (fun x => examBucketOf x == b)
        (fun x => by rw [examBucketOf_backfill]),
      countP_map_backfill _ _ (fun x => examBucketOf x == b)
        (fun x => by rw [examBucketOf_backfill]),
      List.countP_append, List.countP_append, List.countP_cons]
    omega
  have hExamDist : ∀ r,
      ((analyze_knowledge_distribution (l1 ++ kp :: l2)).chapterDetails ch).examRequirements r
        = ((analyze_knowledge_distribution (l1 ++ l2)).chapterDetails ch).examRequirements r
          + kp.examRequirements.count r := by
    intro r
    show examDist (((l1 ++ kp :: l2).map backfillImportance).filter
        fun x => x.chapter = some ch) r
      = examDist (((l1 ++ l2).map backfillImportance).filter
        fun x => x.chapter = some ch) r + _
    rw [List.map_append, List.map_cons, List.map_append,
      List.filter_append, List.filter_append]
    rw [List.filter_cons_of_pos (by rw [backfill_chapter, hch]; simp)]
    rw [examDist_eq, examDist_eq]
    rw [List.map_append, List.sum_append, List.map_append, List.sum_append,
      List.map_cons, List.sum_cons]
    rw [backfill_reqs]
    omega
  refine ⟨?_, ?_, ?_, ?_⟩
  · intro r hr
    rw [hExamDist r, List.count_eq_one_of_mem hnd hr]
  · rw [hByExam .combined, hbk]
    rfl
  · intro q
    rw [hByExam (reqBucket q), hbk]
    cases q <;> rfl
  · rw [hByExam .unmarked, hbk]
    rfl

/-- C5 witness: with the two-tag point `kpTwoTags` alone, the chapter's
`单选` and `简答` buckets each count it, while globally it lands only in
the `综合` bucket. -/
theorem claim_C5_witness :
    ((analyze_knowledge_distribution [kpTwoTags]).chapterDetails Chapter.ch1).examRequirements
        ExamReq.danxuan
      = ((analyze_knowledge_distribution []).chapterDetails Chapter.ch1).examRequirements
        ExamReq.danxuan + 1
    ∧ ((analyze_knowledge_distribution [kpTwoTags]).chapterDetails Chapter.ch1).examRequirements
        ExamReq.jianda
      = ((analyze_knowledge_distribution []).chapterDetails Chapter.ch1).examRequirements
        ExamReq.jianda + 1
    ∧ (analyze_knowledge_distribution [kpTwoTags]).byExam ExamBucket.combined
      = (analyze_knowledge_distribution []).byExam ExamBucket.combined + 1
    ∧ (analyze_knowledge_distribution [kpTwoTags]).byExam ExamBucket.danxuan
      = (analyze_knowledge_distribution []).byExam ExamBucket.danxuan :=
  ⟨(claim_C5 [] [] kpTwoTags Chapter.ch1 rfl (by decide) (by decide)).1
      ExamReq.danxuan (by decide),
   (claim_C5 [] [] kpTwoTags Chapter.ch1 rfl (by decide) (by decide)).1
      ExamReq.jianda (by decide),
   (claim_C5 [] [] kpTwoTags Chapter.ch1 rfl (by decide) (by decide)).2.1,
   (claim_C5 [] [] kpTwoTags Chapter.ch1 rfl (by decide) (by decide)).2.2.1
      ExamReq.danxuan⟩

/-- C9: the aggregator's divisions are guarded — the average content
length is the summed space-joined content length over the point count
and is zero with no points — except the real/mock percentage, which
presumes at least one question and fails (modelled `none`) otherwise. -/
theorem claim_C9 :
    (analyze_content_features []).avgLength = 0
    ∧ (∀ kps : List KnowledgePoint, kps ≠ [] →
        (analyze_content_features kps).avgLength
          = (((kps.map fun kp => (spaceJoin kp.content).length).sum : Nat) : ℚ)
            / ((kps.length : Nat) : ℚ))
    ∧ (∀ q : QuestionStats, q.total = 0 → questionPercentages q = none)
    ∧ (∀ q : QuestionStats, 0 < q.total →
        questionPercentages q
          = some ((q.real : ℚ) / (q.total : ℚ) * 100,
                  (q.mock : ℚ) / (q.total : ℚ) * 100)) := by
  refine ⟨rfl, ?_, ?_, ?_⟩
  · intro kps h
    have hne : kps.isEmpty = false := by simpa using h
    simp [analyze_content_features, hne]
  · intro q h
    unfold questionPercentages
    rw [if_pos h]
  · intro q h
    unfold questionPercentages
    rw [if_neg (by omega)]

/-- C9 witness: a point with content `["ab", "c"]` has average length
four over one; zero questions fail the percentage, two succeed. -/
theorem claim_C9_witness :
    (analyze_content_features [kpLenFour]).avgLength
      = ((([kpLenFour].map fun kp => (spaceJoin kp.content).length).sum : Nat) : ℚ)
        / ((([kpLenFour].length : Nat)) : ℚ)
    ∧ questionPercentages qStatsZero = none
    ∧ questionPercentages qStatsTwo
      = some ((qStatsTwo.real : ℚ) / (qStatsTwo.total : ℚ) * 100,
              (qStatsTwo.mock : ℚ) / (qStatsTwo.total : ℚ) * 100) :=
  ⟨claim_C9.2.1 [kpLenFour] (by simp),
   claim_C9.2.2.1 qStatsZero rfl,
   claim_C9.2.2.2 qStatsTwo (by decide)⟩

theorem leadsWith_length :
    ∀ p s : List Char, leadsWith p s = true → p.length ≤ s.length := by
  intro p
  induction p with
  | nil => intro s _; simp
  | cons p0 ps ih =>
    intro s h
    rcases s with _ | ⟨c, cs⟩
    · exact absurd h (by simp [leadsWith])
    · simp only [List.length_cons]
      have hps : leadsWith ps cs = true := by
        simp only [leadsWith, Bool.and_eq_true] at h
        exact h.2
      have := ih cs hps
      omega

theorem leadsWith_append_nl :
    ∀ (p a b : List Char), '\n' ∉ p →
      leadsWith p (a ++ '\n' :: b) = leadsWith p a := by
  intro p
  induction p with
  | nil => intro a b _; rfl
  | cons p0 ps ih =>
    intro a b hnl
    have hp0 : p0 ≠ '\n' := fun h => hnl (by simp [h])
    rcases a with _ | ⟨c, a'⟩
    · show (decide (p0 = '\n') && leadsWith ps b) = false
      simp [hp0]
    · show (decide (p0 = c) && leadsWith ps (a' ++ '\n' :: b))
        = (decide (p0 = c) && leadsWith ps a')
      rw [ih a' b fun h => hnl (by simp [h])]

theorem countOccAux_append (p : List Char) (hp : p ≠ []) (hnl : '\n' ∉ p) :
    ∀ (a : List Char) (k : Nat) (b : List Char), k ≤ a.length →
      countOccAux p k (a ++ '\n' :: b) = countOccAux p k a + countOccAux p 0 b := by
  intro a
  induction a with
  | nil =>
    intro k b hk
    have hk0 : k = 0 := by simpa using hk
    subst hk0
    have hlw : leadsWith p ('\n' :: b) = false := by
      rcases p with _ | ⟨p0, ps⟩
      · exact absurd rfl hp
      · have hp0 : p0 ≠ '\n' := fun h => hnl (by simp [h])
        show (decide (p0 = '\n') && leadsWith ps b) = false
        simp [hp0]
    simp only [List.nil_append, countOccAux, hlw]
    simp
  | cons c a' ih =>
    intro k b hk
    rcases k with _ | j
    · have hlw : leadsWith p (c :: (a' ++ '\n' :: b)) = leadsWith p (c :: a') := by
        have h := leadsWith_append_nl p (c :: a') b hnl
        simpa using h
      rw [List.cons_append]
      simp only [countOccAux, hlw]
      by_cases hl : leadsWith p (c :: a') = true
      · rw [hl]
        simp only [if_true]
        have hfit : p.length - 1 ≤ a'.length := by
          have := leadsWith_length p (c :: a') hl
          simp at this
          omega
        rw [ih (p.length - 1) b hfit]
        omega
      · rw [Bool.not_eq_true] at hl
        rw [hl]
        simp only [Bool.false_eq_true, if_false]
        exact ih 0 b (by simp)
    · rw [List.cons_append]
      simp only [countOccAux]
      exact ih j b (by simpa using hk)

theorem countOcc_append_nl (p : List Char) (hp : p ≠ []) (hnl : '\n' ∉ p)
    (a b : List Char) :
    countOcc p (a ++ '\n' :: b) = countOcc p a + countOcc p b :=
  countOccAux_append p hp hnl a 0 b (by simp)

theorem joinNl_cons (l : List Char) (ls : List (List Char)) (h : ls ≠ []) :
    joinNl (l :: ls) = l ++ '\n' :: joinNl ls := by
  rcases ls with _ | ⟨x, xs⟩
  · exact absurd rfl h
  · rfl

theorem countOcc_joinNl (p : List Char) (hp : p ≠ []) (hnl : '\n' ∉ p) :
    ∀ ls : List (List Char), countOcc p (joinNl ls) = (ls.map (countOcc p)).sum := by
  intro ls
  induction ls with
  | nil => rfl
  | cons l ls ih =>
    rcases hls : ls with _ | ⟨x, xs⟩
    · simp [joinNl]
    · rw [← hls, joinNl_cons l ls (by simp [hls]), countOcc_append_nl p hp hnl, ih]
      simp

theorem splitNl_no_nl : ∀ l : List Char, '\n' ∉ l → splitNl l = [l] := by
  intro l
  induction l with
  | nil => intro _; rfl
  | cons c rest ih =>
    intro h
    have hc : ¬(c = '\n') := fun hc => h (by simp [hc])
    show (if c = '\n' then [] :: splitNl rest
      else match splitNl rest with
        | [] => [[c]]
        | x :: xs => (c :: x) :: xs) = [c :: rest]
    rw [if_neg hc, ih fun hm => h (by simp [hm])]

theorem splitNl_append : ∀ (l rest : List Char), '\n' ∉ l →
    splitNl (l ++ '\n' :: rest) = l :: splitNl rest := by
  intro l rest
  induction l with
  | nil =>
    intro _
    show (if '\n' = '\n' then [] :: splitNl rest else _) = [] :: splitNl rest
    rw [if_pos rfl]
  | cons c l' ih =>
    intro h
    have hc : ¬(c = '\n') := fun hc => h (by simp [hc])
    show (if c = '\n' then [] :: splitNl (l' ++ '\n' :: rest)
      else match splitNl (l' ++ '\n' :: rest) with
        | [] => [[c]]
        | x :: xs => (c :: x) :: xs) = (c :: l') :: splitNl rest
    rw [if_neg hc, ih fun hm => h (by simp [hm])]

theorem splitNl_joinNl : ∀ ls : List (List Char),
    (∀ l ∈ ls, '\n' ∉ l) → ls ≠ [] → splitNl (joinNl ls) = ls := by
  intro ls
  induction ls with
  | nil => intro _ h; exact absurd rfl h
  | cons l ls ih =>
    intro hnl _
    rcases hls : ls with _ | ⟨x, xs⟩
    · exact splitNl_no_nl l (hnl l (by simp))
    · rw [← hls, joinNl_cons l ls (by simp [hls]),
        splitNl_append l (joinNl ls) (hnl l (by simp)),
        ih (fun y hy => hnl y (by simp [hy])) (by simp [hls])]

theorem chapterStateAfter_cons (st : Option Chapter) (l : List Char)
    (ls : List (List Char)) :
    chapterStateAfter st (l :: ls) = chapterStateAfter (chapterUpdate st l) ls := rfl

theorem questionWalk_cons (st : Option Chapter) (m : Chapter → Nat) (l : List Char)
    (ls : List (List Char)) :
    questionWalk st m (l :: ls)
      = questionWalk (chapterUpdate st l)
          (match chapterUpdate st l with
           | some ch => fun c => if c = ch then m c + countQMarks l else m c
           | none => m) ls := rfl

theorem questionWalk_append :
    ∀ (a b : List (List Char)) (st : Option Chapter) (m : Chapter → Nat),
      questionWalk st m (a ++ b)
        = questionWalk (chapterStateAfter st a) (questionWalk st m a) b := by
  intro a
  induction a with
  | nil => intro b st m; rfl
  | cons l a' ih =>
    intro b st m
    rw [List.cons_append, questionWalk_cons, ih, chapterStateAfter_cons,
      questionWalk_cons]

theorem questionWalk_add :
    ∀ (ls : List (List Char)) (st : Option Chapter) (m : Chapter → Nat) (c : Chapter),
      questionWalk st m ls c = m c + questionWalk st (fun _ => 0) ls c := by
  intro ls
  induction ls with
  | nil => intro st m c; rfl
  | cons l ls ih =>
    intro st m c
    rcases hst : chapterUpdate st l with _ | ch
    · simp only [questionWalk_cons, hst]
      rw [ih _ m c, ih _ (fun _ => 0) c]
    · simp only [questionWalk_cons, hst]
      rw [ih]
      nth_rewrite 2 [ih]
      by_cases hc : c = ch
      · simp [hc]
        omega
      · simp [hc]

/-- C7: a line carrying one `【真题·` and one `【模拟·` marker, scanned
while the sequential walk has a current chapter, adds 2 to that
chapter's question count and 1 each to the global real and mock
counts, relative to the same text without that line. -/
theorem claim_C7 (pre post : List (List Char)) (line : List Char) (ch : Chapter)
    (hnl : ∀ l ∈ pre ++ line :: post, '\n' ∉ l)
    (hch : chapterStateAfter none pre = some ch)
    (hnc : detectChapter line = none)
    (hreal : countOcc "【真题·".toList line = 1)
    (hmock : countOcc "【模拟·".toList line = 1)
    (hq : countQMarks line = 2) :
    (analyze_questions (joinNl (pre ++ line :: post))).byChapter ch
        = (analyze_questions (joinNl (pre ++ post))).byChapter ch + 2
    ∧ (analyze_questions (joinNl (pre ++ line :: post))).real
        = (analyze_questions (joinNl (pre ++ post))).real + 1
    ∧ (analyze_questions (joinNl (pre ++ line :: post))).mock
        = (analyze_questions (joinNl (pre ++ post))).mock + 1 := by
  have hpre_ne : pre ≠ [] := by
    intro h
    rw [h] at hch
    exact Option.noConfusion hch
  have hnl2 : ∀ l ∈ pre ++ post, '\n' ∉ l := by
    intro l hl
    refine hnl l ?_
    rcases List.mem_append.mp hl with h | h
    · exact List.mem_append.mpr (Or.inl h)
    · exact List.mem_append.mpr (Or.inr (by simp [h]))
  have hsplit1 : splitNl (joinNl (pre ++ line :: post)) = pre ++ line :: post :=
    splitNl_joinNl _ hnl (by simp)
  have hsplit2 : splitNl (joinNl (pre ++ post)) = pre ++ post :=
    splitNl_joinNl _ hnl2 (by simp [hpre_ne])
  have hupd : chapterUpdate (some ch) line = some ch := by
    unfold chapterUpdate
    rw [hnc]
  constructor
  · show questionWalk none (fun _ => 0) (splitNl (joinNl (pre ++ line :: post))) ch
      = questionWalk none (fun _ => 0) (splitNl (joinNl (pre ++ post))) ch + 2
    rw [hsplit1, hsplit2, questionWalk_append, questionWalk_append, hch,
      questionWalk_cons, hupd]
    rw [questionWalk_add post (some ch) _ ch]
    nth_rewrite 2 [questionWalk_add post (some ch) _ ch]
    simp [hq]
    omega
  constructor
  · show countOcc "【真题·".toList (joinNl (pre ++ line :: post))
      = countOcc "【真题·".toList (joinNl (pre ++ post)) + 1
    rw [countOcc_joinNl _ (by decide) (by decide),
      countOcc_joinNl _ (by decide) (by decide)]
    rw [List.map_append, List.sum_append, List.map_append, List.sum_append,
      List.map_cons, List.sum_cons, hreal]
    omega
  · show countOcc "【模拟·".toList (joinNl (pre ++ line :: post))
      = countOcc "【模拟·".toList (joinNl (pre ++ post)) + 1
    rw [countOcc_joinNl _ (by decide) (by decide),
      countOcc_joinNl _ (by decide) (by decide)]
    rw [List.map_append, List.sum_append, List.map_append, List.sum_append,
      List.map_cons, List.sum_cons, hmock]
    omega

/-- C7 witness: a `第一章` marker line followed by the quiz line with
one real and one mock marker yields chapter count 2 and global counts
one above the text without the quiz line. -/
theorem claim_C7_witness :
    (analyze_questions (joinNl (linesQuiz ++ quizLine :: []))).byChapter Chapter.ch1
        = (analyze_questions (joinNl (linesQuiz ++ []))).byChapter Chapter.ch1 + 2
    ∧ (analyze_questions (joinNl (linesQuiz ++ quizLine :: []))).real
        = (analyze_questions (joinNl (linesQuiz ++ []))).real + 1
    ∧ (analyze_questions (joinNl (linesQuiz ++ quizLine :: []))).mock
        = (analyze_questions (joinNl (linesQuiz ++ []))).mock + 1 :=
  claim_C7 linesQuiz [] quizLine Chapter.ch1 (by decide) (by decide) (by decide)
    (by decide) (by decide) (by decide)
